import Mathlib

/-!
# Komatachi core — shallow embedding and verification

This file embeds the core modules of the Komatachi agent runtime
(context window selection, compaction, tool dispatch, the agent turn
loop, JSONL storage and the conversation store) as executable Lean
definitions, translated from the TypeScript sources, and proves the
specification claims about them.

Machine integers: all token counts and lengths in the source are
JavaScript numbers holding small non-negative integers; they are
modelled as `Nat` (or `Int` where the source value can go negative,
e.g. token budgets).  The two floating-point expressions in the source,
`Math.ceil(n * 1.2)` and `Math.floor(n * 0.75)`, are modelled exactly
over `Nat`: for every integer `n` in the realistic range (far below
2^50), IEEE double arithmetic yields `Math.ceil(n * 1.2) = ⌈6n/5⌉` and
`Math.floor(n * 0.75) = ⌊3n/4⌋`, because 0.75 is exactly representable
and the relative error of the double nearest to 1.2 is below half an
ulp of every product against the distance to the surrounding integers.
-/

/-- Decidable equality for `Except`, so that concrete runs of the
fallible operations below can be checked by `decide`. -/
instance {ε α : Type} [DecidableEq ε] [DecidableEq α] :
    DecidableEq (Except ε α) := fun a b =>
  match a, b with
  | .ok x, .ok y =>
      if h : x = y then .isTrue (h ▸ rfl)
      else .isFalse (fun hh => h (Except.ok.inj hh))
  | .error e, .error f =>
      if h : e = f then .isTrue (h ▸ rfl)
      else .isFalse (fun hh => h (Except.error.inj hh))
  | .ok _, .error _ => .isFalse (fun hh => Except.noConfusion hh)
  | .error _, .ok _ => .isFalse (fun hh => Except.noConfusion hh)

/-! ### Kernel-computable string primitives

The JavaScript string primitives the source leans on (`trim`,
`startsWith`, splitting, the default `sort` comparator) are defined
here over character lists, so that every concrete run below can be
checked by `decide`/`rfl`.  (The corresponding `String` library
functions are implemented on byte positions and do not reduce in the
kernel.) -/

/-- JS `String.prototype.trim`: strip leading and trailing whitespace. -/
def jsTrim (s : String) : String :=
  String.mk
    (((s.data.dropWhile Char.isWhitespace).reverse.dropWhile
        Char.isWhitespace).reverse)

/-- JS `String.prototype.startsWith`. -/
def jsStartsWith (s marker : String) : Bool :=
  marker.data.isPrefixOf s.data

/-- Split a character list at every character satisfying `p`
(JS `String.prototype.split` with a single-character-class regex
produces the pieces between matches). -/
def splitPred (p : Char → Bool) : List Char → List (List Char)
  | [] => [[]]
  | c :: cs =>
      match splitPred p cs with
      | [] => [[]]
      | w :: ws => if p c then [] :: w :: ws else (c :: w) :: ws

/-- The JS default sort comparator on strings: lexicographic by
code unit. -/
def jsStringLe (a b : String) : Bool :=
  let rec go : List Char → List Char → Bool
    | [], _ => true
    | _ :: _, [] => false
    | x :: xs, y :: ys =>
        if x.toNat < y.toNat then true
        else if y.toNat < x.toNat then false
        else go xs ys
  go a.data b.data

/-- Insert into a sorted list (ascending by `jsStringLe`). -/
def insertSorted (s : String) : List String → List String
  | [] => [s]
  | x :: xs => if jsStringLe s x then s :: x :: xs else x :: insertSorted s xs

/-- Sort a string list ascending — the observable behavior of JS
`Array.prototype.sort()` with the default comparator. -/
def sortStrings (l : List String) : List String :=
  l.foldr insertSorted []

/-! ## Context Window module (src/context/index.ts)

`selectMessages` walks the history backward from the most recent
message, accumulating token estimates, and returns the contiguous
suffix that fits the budget, plus an overflow report for the dropped
prefix.  The backward `for` loop of the source is rendered as a
recursion over the reversed list; the loop body is a literal
translation of lines 70–77 of the source. -/

/-- Report of messages that did not fit within the token budget
(`OverflowReport` in src/context/index.ts). -/
structure OverflowReport where
  /-- Number of messages dropped from the beginning of history. -/
  droppedCount : Nat
  /-- Estimated total tokens of dropped messages. -/
  estimatedDroppedTokens : Nat
  deriving Repr, DecidableEq

/-- Result of message selection (`SelectionResult<T>`). -/
structure SelectionResult (T : Type) where
  /-- Messages that fit within the budget (contiguous block from the end). -/
  selected : List T
  /-- Overflow report if messages were dropped, `none` if all fit. -/
  overflow : Option OverflowReport
  deriving Repr, DecidableEq

/-- The backward accumulation loop of `selectMessages` (source lines
70–77), run over the *reversed* message list: returns how many
messages, counted from the most recent end, are selected.  `acc` is
`tokenAccumulator`; the `break` is the `0` branch. -/
def selLoop {T : Type} (est : T → Nat) (budget : Int) : List T → Nat → Nat
  | [], _ => 0
  | m :: rest, acc =>
      if ((acc + est m : Nat) : Int) > budget then 0
      else 1 + selLoop est budget rest (acc + est m)

/-- `selectMessages` (src/context/index.ts, lines 58–99).  The token
budget is an `Int` because callers may pass non-positive budgets.
`firstSelectedIndex = messages.length - k` where `k` is the number of
selected messages; `selected = messages.slice(firstSelectedIndex)`;
the dropped prefix is `messages.slice(0, firstSelectedIndex)` and its
token total is the source's `reduce` fold. -/
def selectMessages {T : Type} (messages : List T) (tokenBudget : Int)
    (estimateTokens : T → Nat) : SelectionResult T :=
  if messages.length = 0 then { selected := [], overflow := none }
  else
    let k := selLoop estimateTokens tokenBudget messages.reverse 0
    let firstSelectedIndex := messages.length - k
    let selected := messages.drop firstSelectedIndex
    if firstSelectedIndex = 0 then { selected := selected, overflow := none }
    else
      let dropped := messages.take firstSelectedIndex
      { selected := selected,
        overflow := some
          { droppedCount := dropped.length,
            estimatedDroppedTokens :=
              dropped.foldl (fun sum msg => sum + estimateTokens msg) 0 } }

/-- `estimateStringTokens` (src/context/index.ts line 114):
`Math.ceil(text.length / 4)`. -/
def estimateStringTokens (text : String) : Nat :=
  (text.length + 3) / 4

/-! ## Conversation data model (src/conversation/index.ts)

Claude API message types.  `tool_use.input` is an opaque JSON value in
the source; it is modelled by the string `JSON.stringify` would produce
for it, which is the only way the core ever consumes it. -/

/-- Message role: `"user" | "assistant"`. -/
inductive Role where
  | user
  | assistant
  deriving Repr, DecidableEq

/-- The content of a `tool_result` block: `string | TextBlock[]`
(a `TextBlock` is `{type: "text", text}`, represented by its text). -/
inductive ToolResultContent where
  | str (s : String)
  | blocks (texts : List String)
  deriving Repr, DecidableEq

/-- A Claude API content block: `TextBlock | ToolUseBlock | ToolResultBlock`.
`is_error` is an optional boolean (`none` = absent). -/
inductive ContentBlock where
  | text (text : String)
  | tool_use (id : String) (name : String) (input : String)
  | tool_result (tool_use_id : String) (content : ToolResultContent)
      (is_error : Option Bool)
  deriving Repr, DecidableEq

/-- Message content: `string | ContentBlock[]`. -/
inductive MessageContent where
  | str (s : String)
  | blocks (bs : List ContentBlock)
  deriving Repr, DecidableEq

/-- A conversation message in Claude API format. -/
structure Message where
  role : Role
  content : MessageContent
  deriving Repr, DecidableEq

/-- `ConversationMetadata` (src/conversation/index.ts lines 62–71).
Timestamps are epoch milliseconds. -/
structure ConversationMetadata where
  createdAt : Nat
  updatedAt : Nat
  compactionCount : Nat
  model : Option String
  deriving Repr, DecidableEq

/-- The in-memory state of a loaded conversation store: the message
vector plus metadata (the `loadedMessages` / `loadedMetadata` pair of
`createConversationStore`). -/
structure ConvState where
  messages : List Message
  metadata : ConversationMetadata
  deriving Repr, DecidableEq

/-- `replaceTranscript` (src/conversation/index.ts lines 242–258):
rewrite the transcript and bump `updatedAt` to `now` (`Date.now()`). -/
def replaceTranscript (st : ConvState) (ms : List Message) (now : Nat) :
    ConvState :=
  { messages := ms,
    metadata := { st.metadata with updatedAt := now } }

/-- The partial update accepted by `updateMetadata`
(`Partial<Pick<ConversationMetadata, "compactionCount" | "model">>`);
`none` models an absent key. -/
structure MetadataUpdates where
  compactionCount : Option Nat
  model : Option (Option String)
  deriving Repr, DecidableEq

/-- `updateMetadata` (src/conversation/index.ts lines 260–273): merge
the given fields over the loaded metadata and set `updatedAt := now`. -/
def updateMetadata (st : ConvState) (upd : MetadataUpdates) (now : Nat) :
    ConvState :=
  { st with
    metadata :=
      { createdAt := st.metadata.createdAt,
        updatedAt := now,
        compactionCount := upd.compactionCount.getD st.metadata.compactionCount,
        model := upd.model.getD st.metadata.model } }

/-- `appendMessage` (src/conversation/index.ts lines 214–230): append
to the transcript and bump `updatedAt` to `now`. -/
def appendMessage (st : ConvState) (m : Message) (now : Nat) : ConvState :=
  { messages := st.messages ++ [m],
    metadata := { st.metadata with updatedAt := now } }

/-! ## Compaction module (src/compaction/index.ts) -/

/-- A JavaScript value thrown by (or passed opaquely through) the
host: either an `Error` instance carrying a message, or any other
value represented by its `String(·)` conversion. -/
inductive JsValue where
  | error (message : String)
  | str (s : String)
  deriving Repr, DecidableEq

/-- `error instanceof Error ? error.message : String(error)` — the
idiom used at every catch site in the source. -/
def thrownToMessage : JsValue → String
  | .error m => m
  | .str s => s

/-- `Math.ceil(n * 1.2)` where 1.2 is `TOKEN_SAFETY_MARGIN`
(src/compaction/index.ts line 95), computed exactly as `⌈6n/5⌉`. -/
def applySafetyMargin (n : Nat) : Nat := (6 * n + 4) / 5

/-- `Math.floor(maxInputTokens * 0.75)` where 0.75 is
`MAX_INPUT_RATIO` (src/compaction/index.ts line 101), computed exactly
as `⌊3n/4⌋`. -/
def effectiveMaxTokens (n : Nat) : Nat := 3 * n / 4

/-- `MAX_TOOL_FAILURES` (line 104). -/
def MAX_TOOL_FAILURES : Nat := 8

/-- `MAX_FAILURE_CHARS` (line 107). -/
def MAX_FAILURE_CHARS : Nat := 240

/-- `FALLBACK_SUMMARY` (line 110): the text substituted when
summarization fails. -/
def FALLBACK_SUMMARY : String :=
  "Summary unavailable. Older conversation history was truncated."

/-- `estimateTokens` (src/compaction/index.ts lines 124–150): textualize
the message (join block texts with newlines; `tool_use.input` is its
JSON serialization; `tool_result` content flattened) and take
`Math.ceil(text.length / 4)`. -/
def estimateTokens (message : Message) : Nat :=
  let text : String :=
    match message.content with
    | .str s => s
    | .blocks bs =>
        String.intercalate "\n" (bs.map fun block =>
          match block with
          | .text t => t
          | .tool_use _ _ input => input
          | .tool_result _ rc _ =>
              match rc with
              | .str s => s
              | .blocks texts => String.intercalate "\n" texts)
  (text.length + 3) / 4

/-- `estimateMessagesTokens` (lines 155–157): `reduce` sum. -/
def estimateMessagesTokens (messages : List Message) : Nat :=
  messages.foldl (fun sum msg => sum + estimateTokens msg) 0

/-- Result of `canCompact` (lines 182–198):
`{ok: true} | {ok: false, reason, inputTokens}`. -/
inductive CanCompactResult where
  | ok
  | notOk (reason : String) (inputTokens : Nat)
  deriving Repr, DecidableEq

/-- `canCompact` (src/compaction/index.ts lines 182–198). -/
def canCompact (messages : List Message) (maxInputTokens : Nat) :
    CanCompactResult :=
  let inputTokens := applySafetyMargin (estimateMessagesTokens messages)
  let effectiveMax := effectiveMaxTokens maxInputTokens
  if inputTokens > effectiveMax then
    .notOk ("Input (" ++ toString inputTokens ++ " tokens) exceeds limit ("
        ++ toString effectiveMax ++ " tokens)") inputTokens
  else .ok

/-- `ToolFailure` (src/compaction/index.ts lines 72–76). -/
structure ToolFailure where
  toolCallId : String
  toolName : String
  errorSummary : String
  deriving Repr, DecidableEq

/-- `FileOperations` (lines 81–85).  JavaScript `Set`s are modelled as
lists in insertion order; only their deduplicated membership is ever
consumed (the outputs of `computeFileLists` are sorted). -/
structure FileOperations where
  read : List String
  edited : List String
  written : List String
  deriving Repr, DecidableEq

/-- `extractToolResultText` (lines 207–213). -/
def extractToolResultText (content : ToolResultContent) : String :=
  match content with
  | .str s => s
  | .blocks texts => String.intercalate "\n" texts

/-- `errorText.replace(/\s+/g, " ").trim()` — collapse every run of
whitespace to a single space and trim, i.e. join the whitespace-split
words with single spaces. -/
def collapseWhitespace (s : String) : String :=
  String.intercalate " "
    (((splitPred Char.isWhitespace s.data).map String.mk).filter (· ≠ ""))

/-- The first pass of `extractToolFailures` (lines 227–235): collect
`(id, name)` pairs from `tool_use` blocks of assistant messages, in
scan order.  A JS `Map.set` overwrites, so lookups take the *last*
matching pair. -/
def toolNamePairs (messages : List Message) : List (String × String) :=
  messages.foldl
    (fun pairs message =>
      match message.role, message.content with
      | .assistant, .blocks bs =>
          pairs ++ bs.filterMap (fun block =>
            match block with
            | .tool_use id name _ => some (id, name)
            | _ => none)
      | _, _ => pairs) []

/-- `toolNameMap.get(id)` over the collected pairs: last inserted wins. -/
def toolNameLookup (pairs : List (String × String)) (id : String) :
    Option String :=
  (pairs.reverse.find? (fun p => p.1 = id)).map (fun p => p.2)

/-- The truncation applied to one failure's text (lines 250–257):
normalize whitespace; if longer than `MAX_FAILURE_CHARS`, cut to 237
chars plus `"..."`; an empty text becomes `"failed (no output)"`. -/
def failureSummaryText (raw : String) : String :=
  let errorText := collapseWhitespace raw
  if errorText.length > MAX_FAILURE_CHARS then
    String.mk (errorText.data.take (MAX_FAILURE_CHARS - 3)) ++ "..."
  else if errorText = "" then "failed (no output)" else errorText

/-- `extractToolFailures` (src/compaction/index.ts lines 225–268):
find `tool_result` blocks with `is_error: true` inside user messages,
deduplicate by `tool_use_id` (the `seen` set), resolve the tool name
from the first pass (fallback `"tool"`). -/
def extractToolFailures (messages : List Message) : List ToolFailure :=
  let pairs := toolNamePairs messages
  let step := fun (acc : List ToolFailure × List String) (message : Message) =>
    match message.role, message.content with
    | .user, .blocks bs =>
        bs.foldl
          (fun (acc : List ToolFailure × List String) block =>
            match block with
            | .tool_result tuid rc (some true) =>
                if tuid ∈ acc.2 then acc
                else
                  (acc.1 ++ [{ toolCallId := tuid,
                               toolName := (toolNameLookup pairs tuid).getD "tool",
                               errorSummary :=
                                 failureSummaryText (extractToolResultText rc) }],
                   acc.2 ++ [tuid])
            | _ => acc) acc
    | _, _ => acc
  (messages.foldl step ([], [])).1

/-- `computeFileLists` (lines 275–283): modified = edited ∪ written;
read excludes modified; both sorted (JS default string sort). -/
def computeFileLists (fileOps : FileOperations) :
    List String × List String :=
  let modified := (fileOps.edited ++ fileOps.written).dedup
  let filesRead :=
    sortStrings ((fileOps.read.dedup).filter (fun f => f ∉ modified))
  let filesModified := sortStrings modified
  (filesRead, filesModified)

/-- `formatToolFailuresSection` (lines 292–304). -/
def formatToolFailuresSection (failures : List ToolFailure) : String :=
  if failures.length = 0 then ""
  else
    let lines := (failures.take MAX_TOOL_FAILURES).map
      (fun f => "- " ++ f.toolName ++ ": " ++ f.errorSummary)
    let lines :=
      if failures.length > MAX_TOOL_FAILURES then
        lines ++ ["- ...and " ++ toString (failures.length - MAX_TOOL_FAILURES)
          ++ " more"]
      else lines
    "\n\n## Tool Failures\n" ++ String.intercalate "\n" lines

/-- `formatFileOperationsSection` (lines 309–323). -/
def formatFileOperationsSection (filesRead filesModified : List String) :
    String :=
  let sections : List String :=
    (if filesRead.length > 0 then
      ["<read-files>\n" ++ String.intercalate "\n" filesRead ++ "\n</read-files>"]
     else []) ++
    (if filesModified.length > 0 then
      ["<modified-files>\n" ++ String.intercalate "\n" filesModified
        ++ "\n</modified-files>"]
     else [])
  if sections.length > 0 then "\n\n" ++ String.intercalate "\n\n" sections
  else ""

/-- `CompactionConfig` (lines 33–42).  The injected `summarize` either
returns a summary string or throws a JavaScript value. -/
structure CompactionConfig where
  maxInputTokens : Nat
  summarize : List Message → Option String → Except JsValue String
  customInstructions : Option String := none
  previousSummary : Option String := none

/-- `CompactionMetadata` (lines 59–63). -/
structure CompactionMetadata where
  toolFailures : List ToolFailure
  filesRead : List String
  filesModified : List String
  deriving Repr, DecidableEq

/-- `CompactionResult` (lines 47–54). -/
structure CompactionResult where
  summary : String
  inputTokens : Nat
  metadata : CompactionMetadata
  deriving Repr, DecidableEq

/-- The error thrown by `compact`: `InputTooLargeError` (lines 166–177). -/
inductive CompactError where
  | inputTooLarge (inputTokens : Nat) (maxTokens : Nat)
  deriving Repr, DecidableEq

/-- `compact` (src/compaction/index.ts lines 341–397).  Empty input
short-circuits (`config.previousSummary || "No prior conversation
history."`, where JS `||` also rejects the empty string).  Otherwise
the size check may throw `InputTooLargeError`; a failure of the
injected `summarize` is caught and replaced by `FALLBACK_SUMMARY`
(the `console.warn` side effect is dropped); metadata sections are
appended to the summary. -/
def compact (messages : List Message) (fileOps : FileOperations)
    (config : CompactionConfig) : Except CompactError CompactionResult :=
  if messages.length = 0 then
    let lists := computeFileLists fileOps
    .ok { summary :=
            match config.previousSummary with
            | some s => if s = "" then "No prior conversation history." else s
            | none => "No prior conversation history.",
          inputTokens := 0,
          metadata := { toolFailures := [],
                        filesRead := lists.1, filesModified := lists.2 } }
  else
    let inputTokens := applySafetyMargin (estimateMessagesTokens messages)
    match canCompact messages config.maxInputTokens with
    | .notOk _ checkInputTokens =>
        .error (.inputTooLarge checkInputTokens config.maxInputTokens)
    | .ok =>
        let toolFailures := extractToolFailures messages
        let lists := computeFileLists fileOps
        let summary :=
          match config.summarize messages config.previousSummary with
          | .ok s => s
          | .error _ => FALLBACK_SUMMARY
        let summary := summary ++ formatToolFailuresSection toolFailures
        let summary :=
          summary ++ formatFileOperationsSection lists.1 lists.2
        .ok { summary := summary,
              inputTokens := inputTokens,
              metadata := { toolFailures := toolFailures,
                            filesRead := lists.1, filesModified := lists.2 } }

/-! ## Tool Registry module (src/tools/index.ts) -/

/-- `ToolResult` (src/tools/index.ts lines 36–38): `{ok: true, content}
| {ok: false, error}`. -/
inductive ToolResult where
  | ok (content : String)
  | error (error : String)
  deriving Repr, DecidableEq

/-- `ToolDefinition` (lines 46–55).  `inputSchema` is an opaque JSON
schema, modelled by its serialized form; the handler takes the opaque
`unknown` input (modelled by its JSON serialization) and either
returns a `ToolResult` or throws a JavaScript value. -/
structure ToolDefinition where
  name : String
  description : String
  inputSchema : String
  handler : String → Except JsValue ToolResult

/-- `ApiToolDefinition` (lines 62–66): the wire form, with the
snake_case `input_schema` field and no handler. -/
structure ApiToolDefinition where
  name : String
  description : String
  input_schema : String
  deriving Repr, DecidableEq

/-- `exportForApi` (lines 79–87). -/
def exportForApi (tools : List ToolDefinition) : List ApiToolDefinition :=
  tools.map (fun tool =>
    { name := tool.name, description := tool.description,
      input_schema := tool.inputSchema })

/-- `findTool` (lines 95–100): first match by name. -/
def findTool (tools : List ToolDefinition) (name : String) :
    Option ToolDefinition :=
  tools.find? (fun tool => tool.name = name)

/-- `executeTool` (src/tools/index.ts lines 108–120): run the handler
inside `try/catch`; a thrown value is wrapped as an error result using
`error instanceof Error ? error.message : String(error)`. -/
def executeTool (tool : ToolDefinition) (input : String) : ToolResult :=
  match tool.handler input with
  | .ok r => r
  | .error e => .error (thrownToMessage e)

/-! ## Agent Loop module (src/agent/index.ts) -/

/-- `stop_reason` values of a model response. -/
inductive StopReason where
  | end_turn
  | tool_use
  | max_tokens
  deriving Repr, DecidableEq

/-- `CallModelResult` (src/agent/index.ts lines 67–70). -/
structure CallModelResult where
  content : List ContentBlock
  stop_reason : StopReason
  deriving Repr, DecidableEq

/-- `CallModelParams` (lines 55–61). -/
structure CallModelParams where
  model : String
  system : String
  messages : List Message
  tools : Option (List ApiToolDefinition)
  max_tokens : Nat
  deriving Repr, DecidableEq

/-- The errors a turn can raise.  `tokenBudgetExhausted`,
`compactionExhausted` and `turnBudgetExhausted` are the three
`AgentError` messages of the source (lines 216–222, 234–239, 288–291),
carrying the data interpolated into those messages; `modelCallError`
is `ModelCallError` (lines 256–261); `inputTooLarge` is the
`InputTooLargeError` propagated out of `compact`. -/
inductive TurnError where
  | tokenBudgetExhausted (contextWindow : Nat) (systemPromptTokens : Nat)
      (maxTokens : Nat)
  | compactionExhausted (droppedCount : Nat) (estimatedDroppedTokens : Nat)
  | turnBudgetExhausted
  | modelCallError (message : String) (cause : JsValue)
  | inputTooLarge (inputTokens : Nat) (maxTokens : Nat)
  deriving Repr, DecidableEq

/-- `MAX_MODEL_CALLS_PER_TURN` (line 153). -/
def MAX_MODEL_CALLS_PER_TURN : Nat := 25

/-- `MAX_COMPACTION_ATTEMPTS` (line 159). -/
def MAX_COMPACTION_ATTEMPTS : Nat := 2

/-- `COMPACTION_RESERVE_TOKENS` (line 168). -/
def COMPACTION_RESERVE_TOKENS : Int := 20000

/-- `SUMMARY_PREFIX` in the source (src/agent/index.ts line 332): the
marker identifying compaction summary messages. -/
def SUMMARY_MARKER : String := "[Conversation Summary]\n\n"

/-- `extractTextResponse` (src/agent/index.ts lines 495–503): collect
the texts of the `text` blocks in order and join with `"\n"`. -/
def extractTextResponse (content : List ContentBlock) : String :=
  String.intercalate "\n"
    (content.filterMap (fun block =>
      match block with
      | .text t => some t
      | _ => none))

/-- The role strings used when rendering a conversation as text. -/
def roleString : Role → String
  | .user => "user"
  | .assistant => "assistant"

/-- The per-turn environment of `createAgent` (src/agent/index.ts lines
84–99 and the closures over it).  `systemPrompt` stands for
`buildSystemPrompt(loadIdentityFiles(homeDir), toolSummaries,
{currentTime})` and `soulContext` for `loadIdentityFiles(homeDir).soul`:
identity files live on the filesystem, are not touched within a turn,
and no claim concerns their assembly, so they enter as opaque inputs.
`stringifyContent` stands for the host `JSON.stringify` on content
block arrays; `now` for `Date.now()`; `callModel` is the injected
model function, modelled as a pure function of its parameters. -/
structure AgentTurnConfig where
  tools : List ToolDefinition
  model : String
  maxTokens : Nat
  contextWindow : Nat
  callModel : CallModelParams → Except JsValue CallModelResult
  systemPrompt : String
  soulContext : Option String
  stringifyContent : List ContentBlock → String
  now : Nat

/-- `dispatchToolCalls` (src/agent/index.ts lines 297–329): execute
every `tool_use` block in order, synthesizing an error result for
unknown tools; `is_error` is `true` on failure and absent on success. -/
def dispatchToolCalls (tools : List ToolDefinition)
    (content : List ContentBlock) : List ContentBlock :=
  (content.filterMap (fun block =>
    match block with
    | .tool_use id name input => some (id, name, input)
    | _ => none)).map
    (fun t =>
      match findTool tools t.2.1 with
      | none =>
          .tool_result t.1 (.str ("Tool not found: " ++ t.2.1)) (some true)
      | some tool =>
          match executeTool tool t.2.2 with
          | .ok c => .tool_result t.1 (.str c) none
          | .error e => .tool_result t.1 (.str e) (some true))

/-- The identity-aware summarizer built inside `triggerCompaction`
(src/agent/index.ts lines 382–455): render the drop-set as
`[role]: content` paragraphs, assemble the system and user prompts
(appending SOUL when present and the previous summary when non-empty —
JS `if (prevSummary)` rejects the empty string), call the model and
extract its text. -/
def buildSummarizer (cfg : AgentTurnConfig) :
    List Message → Option String → Except JsValue String :=
  fun messages prevSummary =>
    let conversationText := String.intercalate "\n\n"
      (messages.map (fun msg =>
        let content :=
          match msg.content with
          | .str s => s
          | .blocks bs => cfg.stringifyContent bs
        "[" ++ roleString msg.role ++ "]: " ++ content))
    let systemParts : List String :=
      ["You are summarizing a conversation for a persistent entity " ++
       "whose memory works through recursive compaction. Your summary " ++
       "will become this entity's memory of what happened -- anything " ++
       "not captured here is lost."] ++
      (match cfg.soulContext with
       | some sc => ["The entity's core identity:\n" ++ jsTrim sc]
       | none => [])
    let promptParts : List String :=
      ["Summarize this conversation. This summary replaces the original " ++
       "messages -- anything not captured here is lost forever.",
       "",
       "Preserve (in order of importance):",
       "1. Relational context: interactions, commitments, trust, emotional moments",
       "2. Identity development: what the entity learned about itself, " ++
         "changes in self-understanding",
       "3. Important facts, decisions, and their reasoning",
       "4. Promises made, responsibilities accepted",
       "5. Key operational details (compress aggressively)",
       "",
       "Omit: routine exchanges, redundant information, mechanical " ++
       "details that don't affect understanding.",
       "",
       "Include select verbatim quotes when they carry emotional weight " ++
       "or the entity's own voice -- especially commitments, messages to " ++
       "its future self, or moments of realization. A direct quote " ++
       "preserves what a paraphrase flattens.",
       "",
       "Write in first person past tense -- this is the entity's own " ++
       "memory. Be concrete -- preserve specific details that matter, " ++
       "not vague summaries of sentiment."] ++
      (match prevSummary with
       | some p =>
           if p = "" then []
           else ["",
                 "Previous memory (from an earlier compaction -- preserve its " ++
                 "core, do not abstract further):",
                 p]
       | none => []) ++
      ["", "Conversation to summarize:", conversationText]
    (cfg.callModel
      { model := cfg.model,
        system := String.intercalate "\n\n" systemParts,
        messages := [{ role := .user,
                       content := .str (String.intercalate "\n" promptParts) }],
        tools := none,
        max_tokens := cfg.maxTokens }).map
      (fun response => extractTextResponse response.content)

/-- `triggerCompaction` (src/agent/index.ts lines 344–482): keep the
suffix that fits `tokenBudget − reserve`, compact everything before it
(detecting a previous summary by the marker), then atomically replace
the transcript with `[summary message, …kept]` and increment
`compactionCount`.  `reserve = Math.min(20000, Math.floor(tokenBudget
* 0.5))` uses floor division (`Int.fdiv`).  The raw context window is
passed as `maxInputTokens` (line 459). -/
def triggerCompaction (cfg : AgentTurnConfig) (st : ConvState)
    (allMessages : List Message) (tokenBudget : Int) :
    Except TurnError ConvState :=
  let reserve := min COMPACTION_RESERVE_TOKENS (Int.fdiv tokenBudget 2)
  let keepBudget := tokenBudget - reserve
  let keptMessages := (selectMessages allMessages keepBudget estimateTokens).selected
  let dropCount := allMessages.length - keptMessages.length
  let messagesToCompact := allMessages.take dropCount
  let fileOps : FileOperations := { read := [], edited := [], written := [] }
  let previousSummary : Option String :=
    match messagesToCompact with
    | first :: _ =>
        match first.role, first.content with
        | .user, .str s =>
            if jsStartsWith s SUMMARY_MARKER then
              some (s.drop SUMMARY_MARKER.length)
            else none
        | _, _ => none
    | [] => none
  match compact messagesToCompact fileOps
      { maxInputTokens := cfg.contextWindow,
        summarize := buildSummarizer cfg,
        previousSummary := previousSummary } with
  | .error (.inputTooLarge i m) => .error (.inputTooLarge i m)
  | .ok result =>
      let summaryMessage : Message :=
        { role := .user, content := .str (SUMMARY_MARKER ++ result.summary) }
      let st' := replaceTranscript st (summaryMessage :: keptMessages) cfg.now
      .ok (updateMetadata st'
        { compactionCount := some (st'.metadata.compactionCount + 1),
          model := none } cfg.now)

/-- The response loop of `processTurn` (src/agent/index.ts lines
198–292): the `while (modelCallCount < MAX_MODEL_CALLS_PER_TURN)` loop
with its two counters, rendered as a well-founded recursion.  Each
iteration recomputes the budget, selects messages, compacts on
overflow (`continue`), otherwise calls the model, persists the
assistant message, and either returns the extracted text or dispatches
tools and loops. -/
def turnLoop (cfg : AgentTurnConfig) (st : ConvState)
    (modelCallCount compactionAttempts : Nat) :
    Except TurnError (String × ConvState) :=
  if _h25 : MAX_MODEL_CALLS_PER_TURN ≤ modelCallCount then
    .error .turnBudgetExhausted
  else
    let systemPromptTokens := estimateStringTokens cfg.systemPrompt
    let tokenBudget : Int :=
      (cfg.contextWindow : Int) - systemPromptTokens - cfg.maxTokens
    if tokenBudget ≤ 0 then
      .error (.tokenBudgetExhausted cfg.contextWindow systemPromptTokens
        cfg.maxTokens)
    else
      let allMessages := st.messages
      let sel := selectMessages allMessages tokenBudget estimateTokens
      match sel.overflow with
      | some overflow =>
          if _hca : MAX_COMPACTION_ATTEMPTS ≤ compactionAttempts then
            .error (.compactionExhausted overflow.droppedCount
              overflow.estimatedDroppedTokens)
          else
            match triggerCompaction cfg st allMessages tokenBudget with
            | .error e => .error e
            | .ok st' => turnLoop cfg st' modelCallCount (compactionAttempts + 1)
      | none =>
          let apiTools := exportForApi cfg.tools
          match cfg.callModel
              { model := cfg.model,
                system := cfg.systemPrompt,
                messages := sel.selected,
                tools := if apiTools.length > 0 then some apiTools else none,
                max_tokens := cfg.maxTokens } with
          | .error e =>
              .error (.modelCallError
                ("Model call failed: " ++ thrownToMessage e) e)
          | .ok response =>
              let st1 := appendMessage st
                { role := .assistant, content := .blocks response.content }
                cfg.now
              if response.stop_reason ≠ .tool_use then
                .ok (extractTextResponse response.content, st1)
              else
                let toolResultBlocks :=
                  dispatchToolCalls cfg.tools response.content
                let st2 := appendMessage st1
                  { role := .user, content := .blocks toolResultBlocks } cfg.now
                turnLoop cfg st2 (modelCallCount + 1) compactionAttempts
termination_by
  (MAX_MODEL_CALLS_PER_TURN - modelCallCount) +
    (MAX_COMPACTION_ATTEMPTS - compactionAttempts)
decreasing_by
  all_goals simp only [MAX_MODEL_CALLS_PER_TURN, MAX_COMPACTION_ATTEMPTS] at *
  all_goals omega

/-- `processTurn` (src/agent/index.ts lines 192–292): append the user
message, then run the response loop with both counters at zero.
Returns the final text together with the resulting store state. -/
def processTurn (cfg : AgentTurnConfig) (st : ConvState)
    (userInput : String) : Except TurnError (String × ConvState) :=
  let userMessage : Message := { role := .user, content := .str userInput }
  turnLoop cfg (appendMessage st userMessage cfg.now) 0 0

/-! ## Storage module (src/storage/index.ts)

The JSONL layer is generic over the entry type in the source, with
`JSON.stringify` / `JSON.parse` as the fixed codec.  The embedding
keeps the genericity and abstracts the codec as a serializer
`ser : α → String` and a parser `parse : String → Option α`
(`JSON.parse` either yields a value or throws); the claims constrain
these with the properties `JSON.stringify` actually has (no newlines,
no surrounding whitespace, non-empty output, round-tripping).
Filesystem access is modelled at the content level: reading a present
file yields its full content string. -/

/-- The storage error kinds (src/storage/index.ts lines 68–99). -/
inductive StorageError where
  | notFound
  | corrupt
  | ioError
  deriving Repr, DecidableEq

/-- JavaScript `content.split("\n")` over the character list: split on
every `'\n'`, producing `n+1` pieces for `n` separators (the empty
string yields `[""]`). -/
def splitLinesAux : List Char → List String
  | [] => [""]
  | c :: cs =>
      match splitLinesAux cs with
      | [] => [""]
      | l :: ls =>
          if c = '\n' then "" :: l :: ls
          else String.mk (c :: l.data) :: ls

/-- `content.split("\n")` (src/storage/index.ts line 148). -/
def splitLines (content : String) : List String :=
  splitLinesAux content.data

/-- The backward scan of `parseJsonlContent` (lines 152–158): the
index of the last line whose trim is non-empty, `-1` if none. -/
def lastNonEmptyIndex : List String → Int
  | [] => -1
  | l :: rest =>
      let r := lastNonEmptyIndex rest
      if r ≥ 0 then r + 1
      else if jsTrim l ≠ "" then 0 else -1

/-- The main loop of `parseJsonlContent` (lines 160–173): parse each
non-empty line; a parse failure at index `lni` (the last non-empty
line) is skipped, any other parse failure throws
`StorageCorruptionError`. -/
def pjLoop {α : Type} (parse : String → Option α) (lni : Int) :
    Nat → List String → Except StorageError (List α)
  | _, [] => .ok []
  | i, l :: rest =>
      let line := jsTrim l
      if line = "" then pjLoop parse lni (i + 1) rest
      else
        match parse line with
        | some x => (pjLoop parse lni (i + 1) rest).map (fun es => x :: es)
        | none =>
            if (i : Int) = lni then pjLoop parse lni (i + 1) rest
            else .error .corrupt

/-- `parseJsonlContent` (src/storage/index.ts lines 147–176). -/
def parseJsonlContent {α : Type} (parse : String → Option α)
    (content : String) : Except StorageError (List α) :=
  let lines := splitLines content
  pjLoop parse (lastNonEmptyIndex lines) 0 lines

/-- `readAllJsonl` (lines 219–233) on a present file, modelled on the
file's content (the `NotFound`/`IO` read failures concern the
filesystem, not the parsing contract under study). -/
def readAllJsonlContent {α : Type} (parse : String → Option α)
    (content : String) : Except StorageError (List α) :=
  parseJsonlContent parse content

/-- `writeJsonl` (src/storage/index.ts lines 244–258): the content
atomically written — one serialized entry per line, each
LF-terminated; the empty entry list writes the empty string. -/
def writeJsonl {α : Type} (ser : α → String) (entries : List α) : String :=
  if entries.length = 0 then ""
  else String.join (entries.map (fun entry => ser entry ++ "\n"))

/-- Specification-side reading of a JSONL line list, following the
spec's words: skip whitespace-only lines; if a non-empty line fails to
parse and it is the last non-empty line (everything after it is
blank), skip it silently; if any earlier non-empty line fails to
parse, fail with Corrupt. -/
def jsonlReadSpec {α : Type} (parse : String → Option α) :
    List String → Except StorageError (List α)
  | [] => .ok []
  | l :: rest =>
      if jsTrim l = "" then jsonlReadSpec parse rest
      else
        match parse (jsTrim l) with
        | some x => (jsonlReadSpec parse rest).map (fun es => x :: es)
        | none =>
            if rest.all (fun s => jsTrim s = "") then .ok []
            else .error .corrupt

/-- Truncating a string to its first `k` characters — the file-level
truncation of a trailing line used by the partial-tail claims. -/
def takeChars (s : String) (k : Nat) : String :=
  String.mk (s.data.take k)

/-- `JSON.parse` restricted to non-negative integer number literals:
a non-empty all-digit string without a redundant leading zero parses
to its decimal value (exactly the JSON grammar for such literals). -/
def parseNatLit (s : String) : Option Nat :=
  if s ≠ "" ∧ s.data.all Char.isDigit ∧ (s.data.head? ≠ some '0' ∨ s = "0")
  then some (s.data.foldl (fun n c => 10 * n + (c.toNat - 48)) 0)
  else none

/-! ## Conversation store initialization (src/conversation/index.ts) -/

/-- The on-disk state of the conversation directory, at the level
`initialize` observes it: each file is absent (`none`), or present.
A present `metadata.json` either parses to metadata (`some (some m)`)
or is corrupt (`some none`) — the two outcomes `storage.readJson`
distinguishes for an existing file. -/
structure ConvDirState where
  metadataFile : Option (Option ConversationMetadata)
  transcriptFile : Option (List Message)
  deriving Repr, DecidableEq

/-- The errors `initialize` can raise: `ConversationAlreadyExistsError`
or a propagated storage error. -/
inductive InitError where
  | alreadyExists
  | storage (e : StorageError)
  deriving Repr, DecidableEq

/-- `initialize` (src/conversation/index.ts lines 181–212): probe
`metadata.json` via `readJson`; a successful read means the
conversation exists (`AlreadyExists`); a `StorageNotFoundError` means
it does not, and fresh metadata `{createdAt: now, updatedAt: now,
compactionCount: 0, model: model ?? null}` plus an empty transcript
file are written; any other error from the probe (e.g. corruption) is
rethrown. -/
def initConversation (dir : ConvDirState) (now : Nat)
    (model : Option String) : Except InitError ConvDirState :=
  match dir.metadataFile with
  | some (some _) => .error .alreadyExists
  | some none => .error (.storage .corrupt)
  | none =>
      let metadata : ConversationMetadata :=
        { createdAt := now, updatedAt := now, compactionCount := 0,
          model := model }
      .ok { metadataFile := some (some metadata),
            transcriptFile := some [] }

/-! # Lemmas and claim theorems -/

/-! ### Lemmas about `selectMessages` -/

theorem selLoop_le_length {T : Type} (est : T → Nat) (budget : Int)
    (l : List T) (acc : Nat) : selLoop est budget l acc ≤ l.length := by
  induction l generalizing acc with
  | nil => simp [selLoop]
  | cons m rest ih =>
      simp only [selLoop, List.length_cons]
      split
      · omega
      · have := ih (acc + est m)
        omega

theorem selLoop_mono_budget {T : Type} (est : T → Nat) {b b' : Int}
    (hb : b ≤ b') (l : List T) (acc : Nat) :
    selLoop est b l acc ≤ selLoop est b' l acc := by
  induction l generalizing acc with
  | nil => simp [selLoop]
  | cons m rest ih =>
      simp only [selLoop]
      have hrec := ih (acc + est m)
      split <;> split <;> omega

theorem foldl_add_est {T : Type} (est : T → Nat) (l : List T) (a : Nat) :
    l.foldl (fun sum msg => sum + est msg) a = a + (l.map est).sum := by
  induction l generalizing a with
  | nil => simp
  | cons m rest ih => simp [List.foldl_cons, ih, Nat.add_assoc]

/-- Characterization of `selectMessages`: the selection is the suffix of
length `k = selLoop …`, and the overflow report describes the dropped
prefix exactly. -/
theorem selectMessages_eq {T : Type} (ms : List T) (b : Int) (est : T → Nat) :
    selectMessages ms b est =
      (let k := selLoop est b ms.reverse 0
       let f := ms.length - k
       if f = 0 then { selected := ms.drop f, overflow := none }
       else
         { selected := ms.drop f,
           overflow := some
             { droppedCount := (ms.take f).length,
               estimatedDroppedTokens := ((ms.take f).map est).sum } }) := by
  unfold selectMessages
  by_cases h : ms.length = 0
  · have : ms = [] := List.length_eq_zero.mp h
    subst this
    simp [selLoop]
  · simp only [if_neg h, foldl_add_est, Nat.zero_add]


theorem selectMessages_selected_drop {T : Type} (ms : List T) (b : Int)
    (est : T → Nat) :
    (selectMessages ms b est).selected =
      ms.drop (ms.length - selLoop est b ms.reverse 0) := by
  rw [selectMessages_eq]
  dsimp only
  split <;> rfl

theorem selectMessages_overflow_none_iff {T : Type} (ms : List T) (b : Int)
    (est : T → Nat) :
    (selectMessages ms b est).overflow = none ↔
      ms.length - selLoop est b ms.reverse 0 = 0 := by
  rw [selectMessages_eq]
  dsimp only
  split
  · simp_all
  · simp_all

/-- C4: for every message list, non-negative budget and non-negative
token estimator, the selection of `selectMessages` is a contiguous
suffix of the input (the input is some dropped prefix followed by the
selection), `overflow` is `none` exactly when the whole input is
selected, and a non-`none` overflow reports the dropped prefix's
length and the sum of the estimator over that prefix. -/
theorem selectMessages_suffix_overflow {T : Type} (ms : List T) (b : Int)
    (est : T → Nat) (hb : 0 ≤ b) :
    ∃ dropped : List T,
      ms = dropped ++ (selectMessages ms b est).selected ∧
      ((selectMessages ms b est).overflow = none ↔
        (selectMessages ms b est).selected.length = ms.length) ∧
      (∀ rep, (selectMessages ms b est).overflow = some rep →
        rep.droppedCount = dropped.length ∧
        rep.estimatedDroppedTokens = (dropped.map est).sum) := by
  have hk : selLoop est b ms.reverse 0 ≤ ms.length := by
    have := selLoop_le_length est b ms.reverse 0
    rwa [List.length_reverse] at this
  refine ⟨ms.take (ms.length - selLoop est b ms.reverse 0), ?_, ?_, ?_⟩
  · rw [selectMessages_selected_drop, List.take_append_drop]
  · rw [selectMessages_overflow_none_iff, selectMessages_selected_drop,
      List.length_drop]
    omega
  · intro rep hrep
    rw [selectMessages_eq] at hrep
    dsimp only at hrep
    split at hrep
    · exact absurd hrep (by simp)
    · simp only [Option.some.injEq] at hrep
      subst hrep
      exact ⟨rfl, rfl⟩

/-- Witness for `selectMessages_suffix_overflow` at `ms = [2, 3]`,
`b = 3`, `est = id` (where the selection is `[3]` and the report is
`⟨1, 2⟩`). -/
theorem selectMessages_suffix_overflow_witness :
    (0 : Int) ≤ 3 ∧
    ∃ dropped : List Nat,
      [2, 3] = dropped ++ (selectMessages [2, 3] 3 id).selected ∧
      ((selectMessages [2, 3] 3 id).overflow = none ↔
        (selectMessages [2, 3] 3 id).selected.length = [2, 3].length) ∧
      (∀ rep, (selectMessages [2, 3] 3 id).overflow = some rep →
        rep.droppedCount = dropped.length ∧
        rep.estimatedDroppedTokens = (dropped.map id).sum) :=
  ⟨by decide, selectMessages_suffix_overflow [2, 3] 3 id (by decide)⟩

/-- C3, counterexample to the claim as stated: with the non-negative
estimator that is zero on every message, budget `0` and the non-empty
input `[()]`, `selectMessages` selects the message (the accumulated
`0 + 0 > 0` test fails) instead of returning an empty selection with
an overflow over all messages. -/
theorem selectMessages_zero_budget_zero_estimate_counterexample :
    ¬ ((selectMessages [()] 0 (fun _ => 0)).selected = [] ∧
       (selectMessages [()] 0 (fun _ => 0)).overflow =
         some { droppedCount := 1, estimatedDroppedTokens := 0 }) := by
  decide

/-- C3 (amended): for every non-empty message list, every budget
`b ≤ 0`, and every estimator that is *positive* on each message,
`selectMessages` returns the empty selection and an overflow report
covering all messages. -/
theorem selectMessages_nonpos_budget {T : Type} (ms : List T) (b : Int)
    (est : T → Nat) (hne : ms ≠ []) (hb : b ≤ 0)
    (hpos : ∀ m ∈ ms, 0 < est m) :
    (selectMessages ms b est).selected = [] ∧
    (selectMessages ms b est).overflow =
      some { droppedCount := ms.length,
             estimatedDroppedTokens := (ms.map est).sum } := by
  have hk : selLoop est b ms.reverse 0 = 0 := by
    cases hrev : ms.reverse with
    | nil =>
        exact absurd (by simpa using congrArg List.reverse hrev) hne
    | cons m rest =>
        have hm : m ∈ ms := by
          have : m ∈ ms.reverse := by rw [hrev]; exact List.mem_cons_self m rest
          rwa [List.mem_reverse] at this
        have hgt : ((0 + est m : Nat) : Int) > b := by
          have := hpos m hm
          omega
        simp only [selLoop, if_pos hgt]
  have hlen : 0 < ms.length := List.length_pos.mpr hne
  rw [selectMessages_eq]
  dsimp only
  rw [hk]
  rw [if_neg (by omega)]
  constructor
  · simp [List.drop_eq_nil_of_le]
  · simp [List.take_of_length_le (by omega : ms.length ≤ ms.length - 0)]

/-- Witness for `selectMessages_nonpos_budget` at `ms = [5]`, `b = 0`,
`est = id`. -/
theorem selectMessages_nonpos_budget_witness :
    ([5] : List Nat) ≠ [] ∧ (0 : Int) ≤ 0 ∧
    (selectMessages [5] 0 (id : Nat → Nat)).selected = [] ∧
    (selectMessages [5] 0 (id : Nat → Nat)).overflow =
      some { droppedCount := 1, estimatedDroppedTokens := 5 } := by
  refine ⟨by decide, by decide, ?_⟩
  have := selectMessages_nonpos_budget [5] 0 (id : Nat → Nat)
    (by decide) (by decide) (by decide)
  simpa using this

/-- C5: for every non-empty message list, `compact` raises
`InputTooLargeError` exactly when `Math.ceil(sum · 1.2)` exceeds
`Math.floor(maxInputTokens · 0.75)`; `canCompact` passes at or below
that threshold and fails strictly above it. -/
theorem compact_inputTooLarge_iff (messages : List Message)
    (fileOps : FileOperations) (config : CompactionConfig)
    (hne : messages ≠ []) :
    (compact messages fileOps config =
        .error (.inputTooLarge
          (applySafetyMargin (estimateMessagesTokens messages))
          config.maxInputTokens) ↔
      applySafetyMargin (estimateMessagesTokens messages) >
        effectiveMaxTokens config.maxInputTokens) ∧
    (applySafetyMargin (estimateMessagesTokens messages) ≤
        effectiveMaxTokens config.maxInputTokens →
      canCompact messages config.maxInputTokens = .ok) ∧
    (applySafetyMargin (estimateMessagesTokens messages) >
        effectiveMaxTokens config.maxInputTokens →
      canCompact messages config.maxInputTokens ≠ .ok) := by
  have hlen : ¬ messages.length = 0 := fun h => hne (List.length_eq_zero.mp h)
  have hcc : ∀ maxT, canCompact messages maxT =
      (if applySafetyMargin (estimateMessagesTokens messages) >
          effectiveMaxTokens maxT then
        CanCompactResult.notOk
          ("Input (" ++ toString (applySafetyMargin (estimateMessagesTokens messages))
            ++ " tokens) exceeds limit (" ++ toString (effectiveMaxTokens maxT)
            ++ " tokens)")
          (applySafetyMargin (estimateMessagesTokens messages))
       else .ok) := fun _ => rfl
  unfold compact
  rw [if_neg hlen, hcc]
  by_cases hgt : applySafetyMargin (estimateMessagesTokens messages) >
      effectiveMaxTokens config.maxInputTokens
  · rw [if_pos hgt]
    exact ⟨⟨fun _ => hgt, fun _ => rfl⟩, fun hle => absurd hgt (by omega),
      fun _ hok => CanCompactResult.noConfusion hok⟩
  · rw [if_neg hgt]
    exact ⟨⟨fun h => absurd h (fun hh => Except.noConfusion hh),
      fun h => absurd h hgt⟩, fun _ => rfl, fun h => absurd h hgt⟩

/-- Witness for `compact_inputTooLarge_iff`: the message `"hello"`
estimates to 2 tokens, so `inputTokens = ⌈2·1.2⌉ = 3`.  With
`maxInputTokens = 4` the cap is `⌊4·0.75⌋ = 3`: exactly at the
threshold, `canCompact` passes.  With `maxInputTokens = 3` the cap is
2: one token over, `compact` fails with `InputTooLarge`. -/
theorem compact_inputTooLarge_iff_witness :
    canCompact [{ role := .user, content := .str "hello" }] 4 = .ok ∧
    compact [{ role := .user, content := .str "hello" }]
        { read := [], edited := [], written := [] }
        { maxInputTokens := 3,
          summarize := fun _ _ => .ok "s",
          customInstructions := none,
          previousSummary := none } =
      .error (.inputTooLarge 3 3) :=
  ⟨(compact_inputTooLarge_iff
      [{ role := .user, content := .str "hello" }]
      { read := [], edited := [], written := [] }
      { maxInputTokens := 4, summarize := fun _ _ => .ok "s",
        customInstructions := none, previousSummary := none }
      (by decide)).2.1 (by decide),
   (compact_inputTooLarge_iff
      [{ role := .user, content := .str "hello" }]
      { read := [], edited := [], written := [] }
      { maxInputTokens := 3, summarize := fun _ _ => .ok "s",
        customInstructions := none, previousSummary := none }
      (by decide)).1.mpr (by decide)⟩

/-- C1: evaluating `compact` on a non-empty drop-set whose injected
summarize function throws shows that the implementation does *not*
propagate the error: it catches it and substitutes the placeholder
`FALLBACK_SUMMARY` ("Summary unavailable. …"), returning a successful
result — contradicting the specified contract that the turn must fail
with a model-call error and no placeholder be substituted. -/
theorem compact_substitutes_fallback_on_summarizer_failure :
    compact [{ role := .user, content := .str "hello" }]
        { read := [], edited := [], written := [] }
        { maxInputTokens := 1000,
          summarize := fun _ _ => .error (.error "API down"),
          customInstructions := none,
          previousSummary := none } =
      .ok { summary := FALLBACK_SUMMARY,
            inputTokens := 3,
            metadata := { toolFailures := [], filesRead := [],
                          filesModified := [] } } := by
  decide

/-- C9: `executeTool` always returns a tagged `ToolResult` — the
handler's result when the handler returns, and, when the handler
throws, the error variant carrying the thrown `Error`'s message (or
the string conversion of a non-`Error` value). -/
theorem executeTool_never_propagates (tool : ToolDefinition)
    (input : String) :
    (∀ r, tool.handler input = .ok r → executeTool tool input = r) ∧
    (∀ e, tool.handler input = .error e →
      executeTool tool input = .error (thrownToMessage e) ∧
      (∀ m, e = .error m → thrownToMessage e = m) ∧
      (∀ s, e = .str s → thrownToMessage e = s)) := by
  constructor
  · intro r hr
    simp [executeTool, hr]
  · intro e he
    refine ⟨by simp [executeTool, he], fun m hm => ?_, fun s hs => ?_⟩
    · subst hm; rfl
    · subst hs; rfl

/-- Witness for `executeTool_never_propagates`: a handler that throws
`new Error("disk full")` yields the error result `"disk full"`. -/
theorem executeTool_never_propagates_witness :
    executeTool
      { name := "t", description := "d", inputSchema := "{}",
        handler := fun _ => .error (.error "disk full") } "x" =
      .error "disk full" :=
  ((executeTool_never_propagates
      { name := "t", description := "d", inputSchema := "{}",
        handler := fun _ => .error (.error "disk full") } "x").2
    (.error "disk full") rfl).1

theorem selectMessages_selected_length {T : Type} (ms : List T) (b : Int)
    (est : T → Nat) :
    (selectMessages ms b est).selected.length =
      ms.length - (ms.length - selLoop est b ms.reverse 0) := by
  rw [selectMessages_selected_drop, List.length_drop]

/-- C2 (amended): whenever compaction is actually triggered (positive
budget, overflowing selection — the loop's precondition) and
`triggerCompaction` completes without error, the new transcript is *no
longer than* the original — strictly shorter whenever at least two
messages are dropped into the compacted prefix — `compactionCount` is
incremented by exactly 1, and the new first message is a user message
whose string content begins with `"[Conversation Summary]\n\n"`. -/
theorem triggerCompaction_result (cfg : AgentTurnConfig) (st : ConvState)
    (tokenBudget : Int) (st' : ConvState)
    (hpos : 0 < tokenBudget)
    (hov : (selectMessages st.messages tokenBudget estimateTokens).overflow ≠
      none)
    (hrun : triggerCompaction cfg st st.messages tokenBudget = .ok st') :
    st'.messages.length ≤ st.messages.length ∧
    (2 ≤ st.messages.length -
        (selectMessages st.messages
          (tokenBudget - min COMPACTION_RESERVE_TOKENS (Int.fdiv tokenBudget 2))
          estimateTokens).selected.length →
      st'.messages.length < st.messages.length) ∧
    st'.metadata.compactionCount = st.metadata.compactionCount + 1 ∧
    ∃ s, st'.messages.head? =
      some { role := .user, content := .str (SUMMARY_MARKER ++ s) } := by
  -- abbreviations for the two selections
  set keepBudget :=
    tokenBudget - min COMPACTION_RESERVE_TOKENS (Int.fdiv tokenBudget 2)
    with hkb
  have hkle : selLoop estimateTokens keepBudget st.messages.reverse 0 ≤
      st.messages.length := by
    have := selLoop_le_length estimateTokens keepBudget st.messages.reverse 0
    rwa [List.length_reverse] at this
  have htle : selLoop estimateTokens tokenBudget st.messages.reverse 0 ≤
      st.messages.length := by
    have := selLoop_le_length estimateTokens tokenBudget st.messages.reverse 0
    rwa [List.length_reverse] at this
  -- the overflow hypothesis: not everything was selected at the full budget
  have hlt : selLoop estimateTokens tokenBudget st.messages.reverse 0 <
      st.messages.length := by
    rcases lt_or_eq_of_le htle with h | h
    · exact h
    · exact absurd ((selectMessages_overflow_none_iff st.messages tokenBudget
        estimateTokens).mpr (by omega)) hov
  -- the keep-budget selection is at most the full-budget selection
  have hmono : selLoop estimateTokens keepBudget st.messages.reverse 0 ≤
      selLoop estimateTokens tokenBudget st.messages.reverse 0 := by
    apply selLoop_mono_budget
    rw [hkb]
    have h2 : (0 : Int) ≤ Int.fdiv tokenBudget 2 :=
      Int.fdiv_nonneg (le_of_lt hpos) (by norm_num)
    have : (0 : Int) ≤ min COMPACTION_RESERVE_TOKENS (Int.fdiv tokenBudget 2) := by
      rw [le_min_iff]
      exact ⟨by norm_num [COMPACTION_RESERVE_TOKENS], h2⟩
    omega
  have hklen : (selectMessages st.messages keepBudget
      estimateTokens).selected.length =
      selLoop estimateTokens keepBudget st.messages.reverse 0 := by
    rw [selectMessages_selected_length]
    omega
  -- unfold the run
  have h := hrun
  unfold triggerCompaction at h
  dsimp only at h
  rw [← hkb] at h
  split at h
  · exact absurd h (fun hh => Except.noConfusion hh)
  · have hst := Except.ok.inj h
    subst hst
    refine ⟨?_, ?_, ?_, ?_⟩
    · simp only [updateMetadata, replaceTranscript, List.length_cons]
      omega
    · intro h2
      rw [hklen] at h2
      simp only [updateMetadata, replaceTranscript, List.length_cons]
      omega
    · simp [updateMetadata, replaceTranscript]
    · exact ⟨_, rfl⟩

/-- C2, counterexample to "strictly shorter": a transcript of two
messages (17-char and 4-char user strings, estimating 5 and 1 tokens)
overflows a budget of 4, so compaction is triggered; the keep-budget
selection drops exactly one message, and the rewritten transcript
`[summary, kept]` has length 2 — *equal* to the original length, not
strictly shorter — while compaction completed without error. -/
theorem triggerCompaction_not_strictly_shorter :
    (selectMessages
        [({ role := .user,
            content := .str (String.mk (List.replicate 17 'a')) } : Message),
         { role := .user, content := .str "hi!!" }]
        4 estimateTokens).overflow ≠ none ∧
    triggerCompaction
      { tools := [], model := "m", maxTokens := 10, contextWindow := 200,
        callModel := fun _ =>
          .ok { content := [.text "S"], stop_reason := .end_turn },
        systemPrompt := "", soulContext := none,
        stringifyContent := fun _ => "", now := 7 }
      { messages :=
          [{ role := .user, content := .str (String.mk (List.replicate 17 'a')) },
           { role := .user, content := .str "hi!!" }],
        metadata :=
          { createdAt := 1, updatedAt := 2, compactionCount := 3, model := none } }
      [{ role := .user, content := .str (String.mk (List.replicate 17 'a')) },
       { role := .user, content := .str "hi!!" }]
      4 =
      .ok { messages :=
              [{ role := .user, content := .str (SUMMARY_MARKER ++ "S") },
               { role := .user, content := .str "hi!!" }],
            metadata :=
              { createdAt := 1, updatedAt := 7, compactionCount := 4,
                model := none } } ∧
    ¬ (([({ role := .user,
            content := .str (SUMMARY_MARKER ++ "S") } : Message),
         { role := .user, content := .str "hi!!" }]).length <
        ([({ role := .user,
             content := .str (String.mk (List.replicate 17 'a')) } : Message),
          { role := .user, content := .str "hi!!" }]).length) := by
  refine ⟨by decide, by decide, by decide⟩

/-- Witness for `triggerCompaction_result` on the concrete scenario of
the counterexample above (its conclusions hold there: length 2 ≤ 2,
`compactionCount` 3 → 4, first message carries the summary marker). -/
theorem triggerCompaction_result_witness :
    ([({ role := .user, content := .str (SUMMARY_MARKER ++ "S") } : Message),
      { role := .user, content := .str "hi!!" }]).length ≤
      ([({ role := .user,
           content := .str (String.mk (List.replicate 17 'a')) } : Message),
        { role := .user, content := .str "hi!!" }]).length ∧
    (4 : Nat) = 3 + 1 ∧
    ∃ s, ([({ role := .user,
              content := .str (SUMMARY_MARKER ++ "S") } : Message),
           { role := .user, content := .str "hi!!" }]).head? =
      some { role := .user, content := .str (SUMMARY_MARKER ++ s) } := by
  have h := triggerCompaction_result
    { tools := [], model := "m", maxTokens := 10, contextWindow := 200,
      callModel := fun _ =>
        .ok { content := [.text "S"], stop_reason := .end_turn },
      systemPrompt := "", soulContext := none,
      stringifyContent := fun _ => "", now := 7 }
    { messages :=
        [{ role := .user, content := .str (String.mk (List.replicate 17 'a')) },
         { role := .user, content := .str "hi!!" }],
      metadata :=
        { createdAt := 1, updatedAt := 2, compactionCount := 3, model := none } }
    4
    { messages :=
        [{ role := .user, content := .str (SUMMARY_MARKER ++ "S") },
         { role := .user, content := .str "hi!!" }],
      metadata :=
        { createdAt := 1, updatedAt := 7, compactionCount := 4, model := none } }
    (by decide) (by decide) (by decide)
  exact ⟨h.1, h.2.2.1, h.2.2.2⟩

/-- C10: whenever a turn reaches the model (positive budget, no
overflow) and the model's response has a `stop_reason` other than
`tool_use` (including `max_tokens`), `processTurn` returns the texts
of the response's text blocks, in order, joined with a single newline
(the empty string when there are no text blocks), after persisting the
user and assistant messages. -/
theorem processTurn_joins_text_blocks (cfg : AgentTurnConfig)
    (st : ConvState) (userInput : String) (r : CallModelResult)
    (hbudget : 0 < (cfg.contextWindow : Int) -
      (estimateStringTokens cfg.systemPrompt : Int) - (cfg.maxTokens : Int))
    (hsel : (selectMessages
        (st.messages ++ [{ role := .user, content := .str userInput }])
        ((cfg.contextWindow : Int) -
          (estimateStringTokens cfg.systemPrompt : Int) - (cfg.maxTokens : Int))
        estimateTokens).overflow = none)
    (hmodel : ∀ p, cfg.callModel p = .ok r)
    (hstop : r.stop_reason ≠ .tool_use) :
    processTurn cfg st userInput =
      .ok (String.intercalate "\n"
             (r.content.filterMap (fun block =>
               match block with
               | .text t => some t
               | _ => none)),
           appendMessage
             (appendMessage st { role := .user, content := .str userInput }
               cfg.now)
             { role := .assistant, content := .blocks r.content } cfg.now) := by
  unfold processTurn turnLoop
  simp only [appendMessage]
  rw [dif_neg (by decide : ¬ (MAX_MODEL_CALLS_PER_TURN ≤ 0))]
  rw [if_neg (by omega :
    ¬ ((cfg.contextWindow : Int) -
        (estimateStringTokens cfg.systemPrompt : Int) -
        (cfg.maxTokens : Int) ≤ 0))]
  rw [hsel]
  dsimp only
  rw [hmodel]
  dsimp only
  rw [if_pos hstop]
  rfl

/-- Witness for `processTurn_joins_text_blocks` with a model response
that stops at `max_tokens` with *no* text blocks at all: the turn
returns the empty string rather than failing. -/
theorem processTurn_joins_text_blocks_witness :
    processTurn
      { tools := [], model := "m", maxTokens := 1, contextWindow := 100,
        callModel := fun _ => .ok { content := [], stop_reason := .max_tokens },
        systemPrompt := "", soulContext := none,
        stringifyContent := fun _ => "", now := 0 }
      { messages := [],
        metadata :=
          { createdAt := 0, updatedAt := 0, compactionCount := 0,
            model := none } }
      "Hi" =
      .ok ("",
        appendMessage
          (appendMessage
            { messages := [],
              metadata :=
                { createdAt := 0, updatedAt := 0, compactionCount := 0,
                  model := none } }
            { role := .user, content := .str "Hi" } 0)
          { role := .assistant, content := .blocks [] } 0) :=
  processTurn_joins_text_blocks
    { tools := [], model := "m", maxTokens := 1, contextWindow := 100,
      callModel := fun _ => .ok { content := [], stop_reason := .max_tokens },
      systemPrompt := "", soulContext := none,
      stringifyContent := fun _ => "", now := 0 }
    { messages := [],
      metadata :=
        { createdAt := 0, updatedAt := 0, compactionCount := 0, model := none } }
    "Hi" { content := [], stop_reason := .max_tokens }
    (by decide) (by decide) (fun _ => rfl) (by decide)

/-! ### JSONL lemmas -/

theorem splitLinesAux_ne_nil (cs : List Char) : splitLinesAux cs ≠ [] := by
  cases cs with
  | nil => simp [splitLinesAux]
  | cons c cs' =>
      simp only [splitLinesAux]
      cases h : splitLinesAux cs' with
      | nil => simp
      | cons l ls =>
          dsimp only
          split <;> simp

theorem lastNonEmptyIndex_neg_iff (ls : List String) :
    lastNonEmptyIndex ls < 0 ↔ ∀ l ∈ ls, jsTrim l = "" := by
  induction ls with
  | nil => simp [lastNonEmptyIndex]
  | cons l rest ih =>
      simp only [lastNonEmptyIndex]
      by_cases hr : lastNonEmptyIndex rest ≥ 0
      · rw [if_pos hr]
        constructor
        · intro h; omega
        · intro h
          exfalso
          have : lastNonEmptyIndex rest < 0 :=
            ih.mpr (fun s hs => h s (List.mem_cons_of_mem _ hs))
          omega
      · rw [if_neg hr]
        have hrest : ∀ s ∈ rest, jsTrim s = "" := ih.mp (by omega)
        by_cases hl : jsTrim l ≠ ""
        · rw [if_pos hl]
          constructor
          · intro h; omega
          · intro h; exact absurd (h l (List.mem_cons_self l rest)) hl
        · rw [if_neg hl]
          push_neg at hl
          constructor
          · intro _ s hs
            rcases List.mem_cons.mp hs with rfl | hs'
            · exact hl
            · exact hrest s hs'
          · intro _; norm_num

theorem pjLoop_allEmpty {α : Type} (parse : String → Option α) (lni : Int)
    (ls : List String) (h : ∀ l ∈ ls, jsTrim l = "") :
    ∀ i, pjLoop parse lni i ls = .ok [] := by
  induction ls with
  | nil => intro i; rfl
  | cons l rest ih =>
      intro i
      have hl : jsTrim l = "" := h l (List.mem_cons_self l rest)
      simp only [pjLoop, hl, if_pos]
      exact ih (fun s hs => h s (List.mem_cons_of_mem _ hs)) (i + 1)

theorem jsonlReadSpec_allEmpty {α : Type} (parse : String → Option α)
    (ls : List String) (h : ∀ l ∈ ls, jsTrim l = "") :
    jsonlReadSpec parse ls = .ok [] := by
  induction ls with
  | nil => rfl
  | cons l rest ih =>
      have hl : jsTrim l = "" := h l (List.mem_cons_self l rest)
      simp only [jsonlReadSpec, hl, if_pos]
      exact ih (fun s hs => h s (List.mem_cons_of_mem _ hs))

theorem pjLoop_eq_jsonlReadSpec {α : Type} (parse : String → Option α) :
    ∀ (ls : List String) (i : Nat) (lni : Int),
      lni = i + lastNonEmptyIndex ls →
      pjLoop parse lni i ls = jsonlReadSpec parse ls := by
  intro ls
  induction ls with
  | nil => intro i lni _; rfl
  | cons l rest ih =>
      intro i lni hinv
      by_cases hre : ∀ s ∈ rest, jsTrim s = ""
      · have hrneg : lastNonEmptyIndex rest < 0 :=
          (lastNonEmptyIndex_neg_iff rest).mpr hre
        by_cases hl : jsTrim l = ""
        · simp only [pjLoop, jsonlReadSpec, hl, if_pos]
          rw [pjLoop_allEmpty parse lni rest hre (i + 1),
            jsonlReadSpec_allEmpty parse rest hre]
        · have hlni : lastNonEmptyIndex (l :: rest) = 0 := by
            simp only [lastNonEmptyIndex]
            rw [if_neg (by omega), if_pos hl]
          have hi : (i : Int) = lni := by rw [hinv, hlni]; omega
          simp only [pjLoop, jsonlReadSpec]
          rw [if_neg hl, if_neg hl]
          cases hp : parse (jsTrim l) with
          | some x =>
              rw [pjLoop_allEmpty parse lni rest hre (i + 1),
                jsonlReadSpec_allEmpty parse rest hre]
          | none =>
              rw [if_pos hi]
              rw [pjLoop_allEmpty parse lni rest hre (i + 1)]
              rw [if_pos (List.all_eq_true.mpr
                (fun s hs => decide_eq_true (hre s hs)))]
      · have hrpos : lastNonEmptyIndex rest ≥ 0 := by
          by_contra hc
          exact hre ((lastNonEmptyIndex_neg_iff rest).mp (by omega))
        have hlni : lastNonEmptyIndex (l :: rest) =
            lastNonEmptyIndex rest + 1 := by
          simp only [lastNonEmptyIndex]
          rw [if_pos hrpos]
        have hinv' : lni = ((i + 1 : Nat) : Int) + lastNonEmptyIndex rest := by
          rw [hinv, hlni]
          push_cast
          ring
        by_cases hl : jsTrim l = ""
        · simp only [pjLoop, jsonlReadSpec, hl, if_pos]
          exact ih (i + 1) lni hinv'
        · simp only [pjLoop, jsonlReadSpec]
          rw [if_neg hl, if_neg hl]
          cases hp : parse (jsTrim l) with
          | some x => rw [ih (i + 1) lni hinv']
          | none =>
              have hine : ¬ ((i : Int) = lni) := by omega
              rw [if_neg hine]
              have hall : ¬ (rest.all (fun s => jsTrim s = "") = true) := by
                simp only [List.all_eq_true, decide_eq_true_eq]
                exact hre
              rw [if_neg hall]

/-- `parseJsonlContent` is exactly the spec-level per-line reading of
the newline-split content. -/
theorem parseJsonl_eq_spec_aux {α : Type} (parse : String → Option α)
    (content : String) :
    parseJsonlContent parse content =
      jsonlReadSpec parse (splitLines content) := by
  unfold parseJsonlContent
  exact pjLoop_eq_jsonlReadSpec parse (splitLines content) 0 _ (by omega)

/-- C6: `readAllJsonl` splits the file content on newlines, skips
whitespace-only lines, silently skips the last non-empty line when it
fails to parse (returning the remaining entries), and fails with the
Corrupt storage error as soon as any non-last non-empty line fails to
parse — it never returns partial data in that case.  This is stated as
equality with `jsonlReadSpec`, the direct per-line rendering of that
contract. -/
theorem readAllJsonl_corrupt_contract {α : Type} (parse : String → Option α)
    (content : String) :
    readAllJsonlContent parse content =
      jsonlReadSpec parse (splitLines content) :=
  parseJsonl_eq_spec_aux parse content

theorem string_foldl_append_data (l : List String) :
    ∀ init : String,
      (l.foldl (fun r s => r ++ s) init).data =
        init.data ++ l.foldr (fun s acc => s.data ++ acc) [] := by
  induction l with
  | nil => intro init; simp
  | cons s rest ih =>
      intro init
      simp only [List.foldl_cons, ih, String.data_append, List.foldr_cons,
        List.append_assoc]

theorem string_join_data (l : List String) :
    (String.join l).data = l.foldr (fun s acc => s.data ++ acc) [] := by
  have := string_foldl_append_data l ""
  simpa [String.join] using this

theorem writeJsonl_data {α : Type} (ser : α → String) :
    ∀ xs : List α,
      (writeJsonl ser xs).data =
        xs.foldr (fun x acc => (ser x).data ++ '\n' :: acc) [] := by
  intro xs
  cases xs with
  | nil => rfl
  | cons x rest =>
      show (String.join ((x :: rest).map (fun e => ser e ++ "\n"))).data = _
      rw [string_join_data]
      induction (x :: rest) with
      | nil => rfl
      | cons y ys ih =>
          simp only [List.map_cons, List.foldr_cons, ih, String.data_append]
          simp

theorem splitLinesAux_no_newline (a : List Char) (h : '\n' ∉ a) :
    splitLinesAux a = [String.mk a] := by
  induction a with
  | nil => rfl
  | cons c a' ih =>
      have hc : ¬ (c = '\n') := fun hh => h (hh ▸ List.mem_cons_self c a')
      have ha' : '\n' ∉ a' := fun hh => h (List.mem_cons_of_mem c hh)
      simp only [splitLinesAux, ih ha']
      rw [if_neg hc]

theorem splitLinesAux_append_newline (a b : List Char) (h : '\n' ∉ a) :
    splitLinesAux (a ++ '\n' :: b) = String.mk a :: splitLinesAux b := by
  induction a with
  | nil =>
      have hstep : splitLinesAux ([] ++ '\n' :: b) =
          (match splitLinesAux b with
           | [] => [""]
           | l :: ls => if ('\n' : Char) = '\n' then "" :: l :: ls
               else String.mk ('\n' :: l.data) :: ls) := rfl
      rw [hstep]
      cases hsp : splitLinesAux b with
      | nil => exact absurd hsp (splitLinesAux_ne_nil b)
      | cons l ls => simp
  | cons c a' ih =>
      have hc : ¬ (c = '\n') := fun hh => h (hh ▸ List.mem_cons_self c a')
      have ha' : '\n' ∉ a' := fun hh => h (List.mem_cons_of_mem c hh)
      have hstep : splitLinesAux ((c :: a') ++ '\n' :: b) =
          (match splitLinesAux (a' ++ '\n' :: b) with
           | [] => [""]
           | l :: ls => if c = '\n' then "" :: l :: ls
               else String.mk (c :: l.data) :: ls) := rfl
      rw [hstep, ih ha']
      dsimp only
      rw [if_neg hc]

/-- Splitting the written content of `xs` followed by any trailing
characters yields one line per entry followed by the split of the
tail. -/
theorem splitLinesAux_writeJsonl {α : Type} (ser : α → String) :
    ∀ (xs : List α) (t : List Char), (∀ x ∈ xs, '\n' ∉ (ser x).data) →
      splitLinesAux ((writeJsonl ser xs).data ++ t) =
        xs.map ser ++ splitLinesAux t := by
  intro xs
  induction xs with
  | nil => intro t _; simp [writeJsonl]
  | cons x rest ih =>
      intro t h
      have hx : '\n' ∉ (ser x).data := h x (List.mem_cons_self x rest)
      rw [writeJsonl_data]
      simp only [List.foldr_cons]
      rw [List.append_assoc, List.cons_append,
        splitLinesAux_append_newline _ _ hx]
      rw [← writeJsonl_data]
      rw [ih t (fun y hy => h y (List.mem_cons_of_mem x hy))]
      have hmk : String.mk (ser x).data = ser x := by cases ser x; rfl
      rw [hmk, List.map_cons, List.cons_append]

theorem jsonlReadSpec_serialized {α : Type} (ser : α → String)
    (parse : String → Option α) :
    ∀ (ys : List α) (tail : List String),
      (∀ y ∈ ys, jsTrim (ser y) = ser y ∧ ser y ≠ "" ∧
        parse (ser y) = some y) →
      jsonlReadSpec parse (ys.map ser ++ tail) =
        (jsonlReadSpec parse tail).map (fun es => ys ++ es) := by
  intro ys
  induction ys with
  | nil =>
      intro tail _
      simp only [List.map_nil, List.nil_append]
      cases h : jsonlReadSpec parse tail <;> simp [Except.map, h]
  | cons y ys' ih =>
      intro tail h
      obtain ⟨htrim, hne, hparse⟩ := h y (List.mem_cons_self y ys')
      simp only [List.map_cons, List.cons_append, jsonlReadSpec, htrim]
      rw [if_neg hne, hparse]
      dsimp only
      simp only [List.append_eq]
      rw [ih tail (fun z hz => h z (List.mem_cons_of_mem y hz))]
      cases h' : jsonlReadSpec parse tail <;> simp [Except.map, h']

theorem jsonlReadSpec_single_unparseable {α : Type}
    (parse : String → Option α) (p : String)
    (hp : parse (jsTrim p) = none) :
    jsonlReadSpec parse [p] = .ok [] := by
  by_cases h : jsTrim p = ""
  · simp [jsonlReadSpec, h]
  · simp [jsonlReadSpec, h, hp]

/-- C7 (amended): for entries whose serialized forms contain no
newline, carry no surrounding whitespace, are non-empty, and parse
back (all properties of `JSON.stringify` output), write-then-read is
the identity (empty list included: it writes an empty file that reads
back as the empty list).  Truncating the last line to a proper prefix
additionally requires that the prefix fail to parse — true for JSON
*objects* such as transcript messages, but not for all JSON values —
and then reading yields exactly the entries without the last. -/
theorem writeJsonl_readAllJsonl_roundtrip {α : Type} (ser : α → String)
    (parse : String → Option α) (xs : List α)
    (hnl : ∀ x ∈ xs, '\n' ∉ (ser x).data)
    (htrim : ∀ x ∈ xs, jsTrim (ser x) = ser x)
    (hnem : ∀ x ∈ xs, ser x ≠ "")
    (hparse : ∀ x ∈ xs, parse (ser x) = some x) :
    readAllJsonlContent parse (writeJsonl ser xs) = .ok xs ∧
    (∀ (hxs : xs ≠ []) (k : Nat),
      k < (ser (xs.getLast hxs)).data.length →
      parse (jsTrim (takeChars (ser (xs.getLast hxs)) k)) = none →
      readAllJsonlContent parse
        (writeJsonl ser xs.dropLast ++ takeChars (ser (xs.getLast hxs)) k) =
        .ok xs.dropLast) := by
  constructor
  · rw [show ∀ (p : String → Option _) c, readAllJsonlContent p c = jsonlReadSpec p (splitLines c) from fun p c => parseJsonl_eq_spec_aux p c]
    have hsplit : splitLines (writeJsonl ser xs) = xs.map ser ++ [""] := by
      unfold splitLines
      have := splitLinesAux_writeJsonl ser xs [] hnl
      simpa [splitLinesAux] using this
    rw [hsplit]
    rw [jsonlReadSpec_serialized ser parse xs [""]
      (fun y hy => ⟨htrim y hy, hnem y hy, hparse y hy⟩)]
    have hempty : jsonlReadSpec parse [""] = .ok ([] : List α) := rfl
    rw [hempty]
    simp [Except.map]
  · intro hxs k _hk hp
    rw [show ∀ (p : String → Option _) c, readAllJsonlContent p c = jsonlReadSpec p (splitLines c) from fun p c => parseJsonl_eq_spec_aux p c]
    have hlast : xs.getLast hxs ∈ xs := List.getLast_mem hxs
    have hpnl : '\n' ∉ (takeChars (ser (xs.getLast hxs)) k).data :=
      fun hmem => hnl _ hlast (List.take_subset k _ hmem)
    have hsplit : splitLines
        (writeJsonl ser xs.dropLast ++ takeChars (ser (xs.getLast hxs)) k) =
        (xs.dropLast).map ser ++ [takeChars (ser (xs.getLast hxs)) k] := by
      unfold splitLines
      rw [String.data_append]
      rw [splitLinesAux_writeJsonl ser xs.dropLast _
        (fun y hy => hnl y (List.dropLast_subset xs hy))]
      rw [splitLinesAux_no_newline _ hpnl]
    rw [hsplit]
    rw [jsonlReadSpec_serialized ser parse xs.dropLast _
      (fun y hy => ⟨htrim y (List.dropLast_subset xs hy),
        hnem y (List.dropLast_subset xs hy),
        hparse y (List.dropLast_subset xs hy)⟩)]
    rw [jsonlReadSpec_single_unparseable parse _ hp]
    simp [Except.map]

/-- Witness for `writeJsonl_readAllJsonl_roundtrip` with the
object-like codec `ser _ = "{}"` (no proper prefix of `"{}"` parses):
two entries round-trip, and truncating the last line to 1 character
reads back exactly the first entry. -/
theorem writeJsonl_readAllJsonl_roundtrip_witness :
    readAllJsonlContent (fun s => if s = "{}" then some () else none)
        (writeJsonl (fun _ : Unit => "{}") [(), ()]) = .ok [(), ()] ∧
    readAllJsonlContent (fun s => if s = "{}" then some () else none)
        (writeJsonl (fun _ : Unit => "{}") ([(), ()].dropLast) ++
          takeChars "{}" 1) = .ok ([(), ()].dropLast) := by
  have h := writeJsonl_readAllJsonl_roundtrip (fun _ : Unit => "{}")
      (fun s => if s = "{}" then some () else none) [(), ()]
      (by decide) (by decide) (by decide) (by decide)
  exact ⟨h.1, h.2 (by decide) 1 (by decide) (by decide)⟩

/-- C7, counterexample to the claim as stated: for the JSON number
entry `12` (serialized by `JSON.stringify` as `"12"`, parsed by
`JSON.parse`, rendered here by `parseNatLit`), truncating the file's
last line to the proper prefix `"1"` does *not* drop the entry —
`"1"` is itself valid JSON, so reading returns `[1]` instead of the
empty list `[12].dropLast`. -/
theorem readAllJsonl_truncation_counterexample :
    writeJsonl (fun n : Nat => toString n) [12] = "12\n" ∧
    takeChars (toString (12 : Nat)) 1 = "1" ∧
    readAllJsonlContent parseNatLit
      (writeJsonl (fun n : Nat => toString n) (([12] : List Nat).dropLast) ++
        takeChars (toString (12 : Nat)) 1) = .ok [1] ∧
    (Except.ok [1] : Except StorageError (List Nat)) ≠
      .ok (([12] : List Nat).dropLast) := by
  refine ⟨by decide, by decide, by decide, by decide⟩

/-- C8 (amended): `initialize` fails with `AlreadyExists` whenever
`metadata.json` exists *and parses*; when it exists but is corrupt,
the storage Corrupt error from the probing `readJson` propagates
instead; and when it is absent, fresh metadata
`{createdAt = updatedAt = now, compactionCount = 0, model}` is written
together with an empty transcript file. -/
theorem initConversation_contract (dir : ConvDirState) (now : Nat)
    (model : Option String) :
    ((∃ m, dir.metadataFile = some (some m)) →
      initConversation dir now model = .error .alreadyExists) ∧
    (dir.metadataFile = some none →
      initConversation dir now model = .error (.storage .corrupt)) ∧
    (dir.metadataFile = none →
      initConversation dir now model =
        .ok { metadataFile := some (some
                { createdAt := now, updatedAt := now, compactionCount := 0,
                  model := model }),
              transcriptFile := some [] }) := by
  refine ⟨?_, ?_, ?_⟩ <;> intro h
  · obtain ⟨m, hm⟩ := h
    simp [initConversation, hm]
  · simp [initConversation, h]
  · simp [initConversation, h]

/-- Witness for `initConversation_contract`: all three branches at
concrete directory states. -/
theorem initConversation_contract_witness :
    initConversation
      { metadataFile := some (some
          { createdAt := 1, updatedAt := 1, compactionCount := 0,
            model := none }),
        transcriptFile := some [] } 5 none = .error .alreadyExists ∧
    initConversation { metadataFile := some none, transcriptFile := none }
      5 none = .error (.storage .corrupt) ∧
    initConversation { metadataFile := none, transcriptFile := none }
      5 (some "m") =
      .ok { metadataFile := some (some
              { createdAt := 5, updatedAt := 5, compactionCount := 0,
                model := some "m" }),
            transcriptFile := some [] } :=
  ⟨(initConversation_contract _ 5 none).1 ⟨_, rfl⟩,
   (initConversation_contract _ 5 none).2.1 rfl,
   (initConversation_contract _ 5 (some "m")).2.2 rfl⟩

/-- C8, counterexample to the claim as stated: when `metadata.json`
exists but holds unparseable content, `initialize` fails with the
storage Corrupt error, not with `AlreadyExists`. -/
theorem initConversation_corrupt_counterexample :
    initConversation { metadataFile := some none, transcriptFile := none }
      0 none = .error (.storage .corrupt) ∧
    initConversation { metadataFile := some none, transcriptFile := none }
      0 none ≠ .error .alreadyExists := by
  exact ⟨by decide, by decide⟩
